import Mathlib

/-!
# apriltag2_viz: the AprilVizNode overlay node

A shallow embedding of `src/apriltag2_viz.cpp`.

* `project` is the static member `AprilVizNode::project`, written over an
  arbitrary scalar type with `+`, `*` and `/`; the theorems about its value
  instantiate the scalars with the rationals.
* `onImage` and `onTags` are the two subscription callbacks, as functions from
  the node's fields (`img`, `merged`, `overlay`, `overlay_mode`, and the
  `alpha` entry of the parameter store) to an outcome: the fields afterwards,
  what was handed to OpenCV on the way, and the exception thrown, if any.
* OpenCV itself is not part of the repository.  The decoder, the drawing
  primitives and the floating-point to integer conversion are taken as an
  environment `Cv`; `cv::addWeighted` is modelled from the specification.
-/

namespace AprilVizNode

/-! ## Data model -/

/-- The type cv::Scalar: four channel values. -/
structure Scalar where
  v0 : Nat
  v1 : Nat
  v2 : Nat
  v3 : Nat
deriving DecidableEq, Repr

/-- The channel values of a scalar, in order. -/
def Scalar.toList (s : Scalar) : List Nat := [s.v0, s.v1, s.v2, s.v3]

/-- The type cv::Mat restricted to 8-bit images: a header (rows, columns, channels)
and the pixel bytes, row-major with interleaved channels. -/
structure Mat where
  rows : Nat
  cols : Nat
  channels : Nat
  data : List Nat
deriving DecidableEq, Repr

/-- The default-constructed cv::Mat: no rows, no columns, no data. -/
instance : Inhabited Mat := ⟨⟨0, 0, 1, []⟩⟩

/-- The method cv::Mat::empty: true when there is no data or no element. -/
def Mat.empty (m : Mat) : Bool := m.data.isEmpty || m.rows * m.cols == 0

/-- The byte of channel `k` of the pixel at row `r`, column `c`. -/
def Mat.px (m : Mat) (r c k : Nat) : Nat :=
  m.data.getD ((r * m.cols + c) * m.channels + k) 0

/-- The constructor `cv::Mat(size, type, scalar)`: every pixel is set to the
first `channels` values of the scalar. -/
def Mat.filled (rows cols channels : Nat) (s : Scalar) : Mat :=
  ⟨rows, cols, channels, (List.replicate (rows * cols) (s.toList.take channels)).flatten⟩

/-- The type cv::Point2d, over the scalar type `α`. -/
structure Point2d (α : Type) where
  x : α
  y : α
deriving DecidableEq, Repr

/-- The type cv::Point: integer pixel coordinates. -/
structure Point where
  x : Int
  y : Int
deriving DecidableEq, Repr

/-- One entry of `AprilTagDetectionArray::detections`, as far as the node reads it:
the row-major homography, the centre and the four corners. -/
structure Detection (α : Type) where
  homography : Fin 9 → α
  centre : Point2d α
  corners : Fin 4 → Point2d α

/-- The table `AprilVizNode::colours`: red, green, blue, yellow. -/
def colours : Fin 4 → Scalar
  | 0 => ⟨0, 0, 255, 255⟩
  | 1 => ⟨0, 255, 0, 255⟩
  | 2 => ⟨255, 0, 0, 255⟩
  | 3 => ⟨0, 255, 255, 255⟩

/-! ## The OpenCV environment -/

/-- The OpenCV functions the node calls and the C++ conversion it relies on, none
of which is defined in the repository.  `line` receives the cv::Point2d arguments
as the source passes them. -/
structure Cv (α : Type) where
  imdecode : List Nat → Mat
  line : Mat → Point2d α → Point2d α → Scalar → Nat → Mat
  fillConvexPoly : Mat → List Point → Scalar → Mat
  circle : Mat → Point → Nat → Scalar → Nat → Mat
  toInt : α → Int

/-- Rounding to the nearest integer, ties to the even one: the rounding cvRound
applies before a value is stored in an integer channel.  The specification leaves
the rounding open. -/
def cvRound (x : ℚ) : Int :=
  if x - ⌊x⌋ < 1 / 2 then ⌊x⌋
  else if 1 / 2 < x - ⌊x⌋ then ⌊x⌋ + 1
  else if ⌊x⌋ % 2 = 0 then ⌊x⌋ else ⌊x⌋ + 1

/-- Modelled from the spec: the clipping of a blended channel value "to valid pixel
range" (OpenCV's saturate_cast to an 8-bit channel, absent from src/): the value is
rounded to an integer and clamped to 0..255. -/
def saturate_cast (x : ℚ) : Nat := (max 0 (min 255 (cvRound x))).toNat

/-- Modelled from the spec: cv::addWeighted (OpenCV, absent from src/), the
"weighted, saturating per-channel sum, clipped to valid pixel range":
every byte of the result is `saturate_cast (src1 * alpha + src2 * beta + gamma)`.
Operands whose size or channel count differ are rejected with an exception. -/
def addWeighted (src1 : Mat) (alpha : ℚ) (src2 : Mat) (beta gamma : ℚ) : Except String Mat :=
  if src1.rows = src2.rows ∧ src1.cols = src2.cols ∧ src1.channels = src2.channels then
    .ok ⟨src1.rows, src1.cols, src1.channels,
      (List.range (src1.rows * src1.cols * src1.channels)).map fun i =>
        saturate_cast ((src1.data.getD i 0 : ℚ) * alpha + (src2.data.getD i 0 : ℚ) * beta + gamma)⟩
  else .error "Sizes of input arguments do not match"

/-! ## The node -/

/-- The fields of `AprilVizNode` the callbacks read and write, with the `alpha`
entry of the node's parameter store (absent when the parameter is not set). -/
structure Node where
  img : Mat
  merged : Mat
  overlay : Mat
  overlay_mode : String
  alpha : Option ℚ
deriving DecidableEq

/-- The constructor: the three images start empty and `overlay_mode` is read from
the parameter of that name, `"axes"` when it is not set. -/
def Node.init (overlay_mode_param : Option String) (alpha_param : Option ℚ) : Node :=
  ⟨default, default, default, overlay_mode_param.getD "axes", alpha_param⟩

/-- `AprilVizNode::project`: the homography `H` applied to the point `pc`. -/
def project {α : Type} [Add α] [Mul α] [Div α] (H : Fin 9 → α) (pc : Fin 2 → α) : Fin 2 → α :=
  let z := H ⟨3*2+0, by decide⟩ * pc 0 + H ⟨3*2+1, by decide⟩ * pc 1 + H ⟨3*2+2, by decide⟩
  fun i =>
    (H ⟨3*i.val+0, by omega⟩ * pc 0 + H ⟨3*i.val+1, by omega⟩ * pc 1
      + H ⟨3*i.val+2, by omega⟩) / z

/-- What a call of `onImage` leaves behind: the node, the image passed to
cv::imshow (when the call is reached) and the exception thrown before that call
(when one is).  What cv::imshow does with the image is outside the model. -/
structure ImageOutcome where
  node : Node
  shown : Option Mat
  error : Option String

/-- `AprilVizNode::onImage` on the payload `msg_img`. -/
def onImage {α : Type} (cv : Cv α) (n : Node) (msg_img : List Nat) : ImageOutcome :=
  let n1 : Node := { n with img := cv.imdecode msg_img }
  if n1.overlay.empty then
    let n2 : Node := { n1 with merged := n1.img }
    ⟨n2, some n2.merged, none⟩
  else
    let alpha := n1.alpha.getD (1 / 2)
    match addWeighted n1.img 1 n1.overlay alpha 0 with
    | .ok m => ⟨{ n1 with merged := m }, some m, none⟩
    | .error e => ⟨n1, none, some e⟩

/-- The node after a sequence of frame messages, each handled by `onImage`. -/
def onImages {α : Type} (cv : Cv α) (n : Node) (msgs : List (List Nat)) : Node :=
  msgs.foldl (fun s m => (onImage cv s m).node) n

/-- A call of one of OpenCV's drawing functions on the overlay, with its arguments. -/
inductive DrawCmd (α : Type) where
  | line (pt1 pt2 : Point2d α) (colour : Scalar) (thickness : Nat)
  | fillConvexPoly (pts : List Point) (colour : Scalar)
  | circle (centre : Point) (radius : Nat) (colour : Scalar) (thickness : Nat)
deriving DecidableEq

/-- The overlay under construction together with the drawing calls made on it so far. -/
structure Canvas (α : Type) where
  mat : Mat
  calls : List (DrawCmd α)

/-- The call `cv::line(overlay, pt1, pt2, colour, thickness)`. -/
def Canvas.line {α : Type} (cv : Cv α) (cvs : Canvas α) (pt1 pt2 : Point2d α)
    (colour : Scalar) (thickness : Nat) : Canvas α :=
  ⟨cv.line cvs.mat pt1 pt2 colour thickness, cvs.calls ++ [DrawCmd.line pt1 pt2 colour thickness]⟩

/-- The call `cv::fillConvexPoly(overlay, pts, npts, colour)`. -/
def Canvas.fillConvexPoly {α : Type} (cv : Cv α) (cvs : Canvas α) (pts : List Point)
    (colour : Scalar) : Canvas α :=
  ⟨cv.fillConvexPoly cvs.mat pts colour, cvs.calls ++ [DrawCmd.fillConvexPoly pts colour]⟩

/-- The call `cv::circle(overlay, centre, radius, colour, thickness)`. -/
def Canvas.circle {α : Type} (cv : Cv α) (cvs : Canvas α) (centre : Point) (radius : Nat)
    (colour : Scalar) (thickness : Nat) : Canvas α :=
  ⟨cv.circle cvs.mat centre radius colour thickness,
    cvs.calls ++ [DrawCmd.circle centre radius colour thickness]⟩

/-- The conversion of a message point to a cv::Point. -/
def toPoint {α : Type} (cv : Cv α) (p : Point2d α) : Point := ⟨cv.toInt p.x, cv.toInt p.y⟩

/-- The `"axes"` branch of the loop body: three projections and two lines. -/
def drawAxes {α : Type} [Add α] [Mul α] [Div α] [Zero α] [One α]
    (cv : Cv α) (cvs : Canvas α) (d : Detection α) : Canvas α :=
  let c := project d.homography ![0, 0]
  let x := project d.homography ![1, 0]
  let y := project d.homography ![0, 1]
  let cvs1 := cvs.line cv ⟨c 0, c 1⟩ ⟨x 0, x 1⟩ ⟨0, 0, 255, 255⟩ 3
  cvs1.line cv ⟨c 0, c 1⟩ ⟨y 0, y 1⟩ ⟨0, 255, 0, 255⟩ 3

/-- The `"tri"` branch of the loop body: four triangles from the centre to the
corners `i % 4` and `(i + 1) % 4`, for `i` from 0 to 3. -/
def drawTri {α : Type} (cv : Cv α) (cvs : Canvas α) (d : Detection α) : Canvas α :=
  (List.finRange 4).foldl
    (fun acc i =>
      acc.fillConvexPoly cv
        [toPoint cv d.centre,
         toPoint cv (d.corners ⟨i.val % 4, Nat.mod_lt _ (by decide)⟩),
         toPoint cv (d.corners ⟨(i.val + 1) % 4, Nat.mod_lt _ (by decide)⟩)]
        (colours i))
    cvs

/-- The closing loop of the body: a circle of radius 5 on each corner. -/
def drawCorners {α : Type} (cv : Cv α) (cvs : Canvas α) (d : Detection α) : Canvas α :=
  (List.finRange 4).foldl
    (fun acc i => acc.circle cv (toPoint cv (d.corners i)) 5 (colours i) 2)
    cvs

/-- The loop of `onTags` over the detections: the canvas when the loop ends and
the exception that ended it, if one did. -/
def renderDetections {α : Type} [Add α] [Mul α] [Div α] [Zero α] [One α]
    (cv : Cv α) (overlay_mode : String) : List (Detection α) → Canvas α → Canvas α × Option String
  | [], cvs => (cvs, none)
  | d :: rest, cvs =>
    if overlay_mode = "axes" then
      renderDetections cv overlay_mode rest (drawCorners cv (drawAxes cv cvs d) d)
    else if overlay_mode = "tri" then
      renderDetections cv overlay_mode rest (drawCorners cv (drawTri cv cvs d) d)
    else
      (cvs, some "unknown overlay mode")

/-- What a call of `onTags` leaves behind: the node, the drawing calls made on the
overlay, in order, and the exception thrown by the `throw` statement (when it is
reached). -/
structure TagsOutcome (α : Type) where
  node : Node
  calls : List (DrawCmd α)
  error : Option String

/-- `AprilVizNode::onTags` on the detections of the message. -/
def onTags {α : Type} [Add α] [Mul α] [Div α] [Zero α] [One α]
    (cv : Cv α) (n : Node) (detections : List (Detection α)) : TagsOutcome α :=
  if n.img.empty then
    ⟨n, [], none⟩
  else
    let blank : Canvas α := ⟨Mat.filled n.img.rows n.img.cols 3 ⟨0, 0, 0, 0⟩, []⟩
    let r := renderDetections cv n.overlay_mode detections blank
    ⟨{ n with overlay := r.1.mat }, r.1.calls, r.2⟩

/-! ## Concrete inputs -/

/-- Truncation towards zero of a rational, the C++ conversion of a floating-point
value to `int`. -/
def truncQ (q : ℚ) : Int := Int.tdiv q.num q.den

/-- A stand-in decoder for concrete inputs: a payload of fewer than three bytes does
not decode (the result is the empty image), any other decodes to one pixel. -/
def sampleDecode (bytes : List Nat) : Mat :=
  if bytes.length < 3 then default else ⟨1, 1, 3, bytes.take 3⟩

/-- An environment over the rationals for concrete inputs; its drawing functions
leave the pixels alone.  The theorems below hold for every environment. -/
def sampleCv : Cv ℚ where
  imdecode := sampleDecode
  line := fun m _ _ _ _ => m
  fillConvexPoly := fun m _ _ => m
  circle := fun m _ _ _ _ => m
  toInt := truncQ

/-- A homography with a non-zero third row. -/
def sampleH : Fin 9 → ℚ := ![1, 2, 3, 4, 5, 6, 7, 8, 9]

/-- A one-pixel frame. -/
def frame1 : Mat := ⟨1, 1, 3, [10, 20, 30]⟩

/-- A one-pixel overlay with something drawn on it. -/
def overlay1 : Mat := ⟨1, 1, 3, [0, 0, 255]⟩

/-- A node that has received `frame1` and no detections yet. -/
def frameNode (mode : String) : Node := ⟨frame1, frame1, default, mode, none⟩

/-- A node that holds `frame1` and the overlay `overlay1`. -/
def overlayNode (mode : String) : Node := ⟨frame1, frame1, overlay1, mode, none⟩

/-- One detection whose homography has an all-zero third row. -/
def degenerateDetection : Detection ℚ where
  homography := ![1, 0, 5, 0, 1, 7, 0, 0, 0]
  centre := ⟨5, 7⟩
  corners := ![⟨4, 6⟩, ⟨6, 6⟩, ⟨6, 8⟩, ⟨4, 8⟩]

/-! ## Auxiliary facts -/

/-- The row-major index of a pixel inside the image is inside the data. -/
theorem index_lt {rows cols ch r c k : Nat} (hr : r < rows) (hc : c < cols) (hk : k < ch) :
    (r * cols + c) * ch + k < rows * cols * ch := by
  have h1 : r * cols + c + 1 ≤ rows * cols := by
    have h2 : (r + 1) * cols ≤ rows * cols := Nat.mul_le_mul_right _ hr
    have h3 : (r + 1) * cols = r * cols + cols := Nat.succ_mul r cols
    omega
  have h4 : (r * cols + c + 1) * ch ≤ rows * cols * ch := Nat.mul_le_mul_right _ h1
  have h5 : (r * cols + c + 1) * ch = (r * cols + c) * ch + ch := Nat.succ_mul _ ch
  omega

/-- A clipped value is a valid 8-bit channel value. -/
theorem saturate_cast_le (x : ℚ) : saturate_cast x ≤ 255 := by
  unfold saturate_cast
  have h : max 0 (min 255 (cvRound x)) ≤ 255 := max_le (by norm_num) (min_le_left _ _)
  have h0 : (0 : Int) ≤ max 0 (min 255 (cvRound x)) := le_max_left _ _
  omega

/-- A list whose entries all equal the default reads as the default everywhere. -/
theorem getD_of_forall_eq {l : List Nat} {d : Nat} (h : ∀ v ∈ l, v = d) (i : Nat) :
    l.getD i d = d := by
  by_cases hi : i < l.length
  · rw [List.getD_eq_getElem l d hi]
    exact h _ (List.getElem_mem _)
  · exact List.getD_eq_default l d (Nat.le_of_not_lt hi)

/-- Every byte of a matrix filled with the zero scalar is zero. -/
theorem filled_zero_data (rows cols channels : Nat) :
    ∀ v ∈ (Mat.filled rows cols channels ⟨0, 0, 0, 0⟩).data, v = 0 := by
  intro v hv
  simp only [Mat.filled, List.mem_flatten, List.mem_replicate] at hv
  obtain ⟨l, ⟨_, hl⟩, hvl⟩ := hv
  subst hl
  have hsub := List.mem_of_mem_take hvl
  simp [Scalar.toList] at hsub
  exact hsub

/-- The call `onImage` never writes the overlay. -/
theorem onImage_keeps_overlay {α : Type} (cv : Cv α) (n : Node) (msg : List Nat) :
    (onImage cv n msg).node.overlay = n.overlay := by
  unfold onImage
  dsimp only
  split
  · rfl
  · split <;> rfl

/-- When the operands agree in size and channel count, the blend succeeds. -/
theorem addWeighted_ok (a : Mat) (wa : ℚ) (b : Mat) (wb g : ℚ)
    (h : a.rows = b.rows ∧ a.cols = b.cols ∧ a.channels = b.channels) :
    addWeighted a wa b wb g = .ok ⟨a.rows, a.cols, a.channels,
      (List.range (a.rows * a.cols * a.channels)).map fun i =>
        saturate_cast ((a.data.getD i 0 : ℚ) * wa + (b.data.getD i 0 : ℚ) * wb + g)⟩ := by
  unfold addWeighted
  rw [if_pos h]

/-- The bytes of a blend, pixel by pixel. -/
theorem blend_px (a : Mat) (wa : ℚ) (b : Mat) (wb g : ℚ)
    (hc : a.cols = b.cols) (hch : a.channels = b.channels)
    (r c k : Nat) (hr : r < a.rows) (hcc : c < a.cols) (hk : k < a.channels) :
    (Mat.mk a.rows a.cols a.channels
      ((List.range (a.rows * a.cols * a.channels)).map fun i =>
        saturate_cast ((a.data.getD i 0 : ℚ) * wa + (b.data.getD i 0 : ℚ) * wb + g))).px r c k
      = saturate_cast ((a.px r c k : ℚ) * wa + (b.px r c k : ℚ) * wb + g) := by
  have hi := index_lt hr hcc hk
  unfold Mat.px
  dsimp only
  rw [List.getD_eq_getElem _ _ (by simpa using hi)]
  simp [← hc, ← hch]

/-- In `"axes"` mode the loop never throws and appends, for each detection in order,
two lines between projected points and four corner circles. -/
theorem renderDetections_axes {α : Type} [Add α] [Mul α] [Div α] [Zero α] [One α]
    (cv : Cv α) (ds : List (Detection α)) (cvs : Canvas α) :
    (renderDetections cv "axes" ds cvs).2 = none
    ∧ (renderDetections cv "axes" ds cvs).1.calls = cvs.calls ++ ds.flatMap fun d =>
        [DrawCmd.line ⟨project d.homography ![0, 0] 0, project d.homography ![0, 0] 1⟩
            ⟨project d.homography ![1, 0] 0, project d.homography ![1, 0] 1⟩ ⟨0, 0, 255, 255⟩ 3,
         DrawCmd.line ⟨project d.homography ![0, 0] 0, project d.homography ![0, 0] 1⟩
            ⟨project d.homography ![0, 1] 0, project d.homography ![0, 1] 1⟩ ⟨0, 255, 0, 255⟩ 3,
         DrawCmd.circle (toPoint cv (d.corners 0)) 5 (colours 0) 2,
         DrawCmd.circle (toPoint cv (d.corners 1)) 5 (colours 1) 2,
         DrawCmd.circle (toPoint cv (d.corners 2)) 5 (colours 2) 2,
         DrawCmd.circle (toPoint cv (d.corners 3)) 5 (colours 3) 2] := by
  induction ds generalizing cvs with
  | nil => simp [renderDetections]
  | cons d rest ih =>
    rw [renderDetections, if_pos rfl]
    refine ⟨(ih _).1, ?_⟩
    rw [(ih _).2]
    simp [drawCorners, drawAxes, Canvas.line, Canvas.circle, List.finRange]
    exact ⟨rfl, rfl⟩

/-- Rounding a whole number leaves it as it is. -/
theorem cvRound_natCast (v : Nat) : cvRound (v : ℚ) = v := by
  have h : ⌊(v : ℚ)⌋ = (v : Int) := Int.floor_natCast v
  unfold cvRound
  rw [h]
  simp

/-- Clipping a whole number within 0..255 leaves it as it is. -/
theorem saturate_cast_natCast (v : Nat) (hv : v ≤ 255) : saturate_cast (v : ℚ) = v := by
  unfold saturate_cast
  rw [cvRound_natCast]
  omega

/-- The tie 157.5 rounds to the even neighbour 158. -/
theorem saturate_cast_tie : saturate_cast (315 / 2) = 158 := by
  have h : ⌊(315 / 2 : ℚ)⌋ = 157 := by
    rw [Int.floor_eq_iff]
    norm_num
  unfold saturate_cast cvRound
  rw [h]
  norm_num
  rfl

/-- The value 327.5 is clipped to 255. -/
theorem saturate_cast_clip : saturate_cast (655 / 2) = 255 := by
  have h : ⌊(655 / 2 : ℚ)⌋ = 327 := by
    rw [Int.floor_eq_iff]
    norm_num
  unfold saturate_cast cvRound
  rw [h]
  norm_num
  rfl

/-- The blend of `frame1` with `overlay1` at the default `alpha`: the channels are
`10 + 0/2`, `20 + 0/2` and `30 + 255/2 = 157.5`, stored as 158. -/
theorem sample_blend_value :
    (onImage sampleCv (overlayNode "axes") [10, 20, 30]).node.merged
      = ⟨1, 1, 3, [10, 20, 158]⟩ := by
  have hov : (overlayNode "axes").overlay.empty = false := by decide
  unfold onImage
  dsimp only
  rw [hov]
  simp [addWeighted, overlayNode, overlay1, sampleCv, sampleDecode, List.range, List.range.loop]
  refine ⟨?_, ?_, ?_⟩
  · exact_mod_cast saturate_cast_natCast 10 (by norm_num)
  · exact_mod_cast saturate_cast_natCast 20 (by norm_num)
  · have h : (30 + 255 * 2⁻¹ : ℚ) = 315 / 2 := by norm_num
    rw [h]
    exact saturate_cast_tie

/-! ## Theorems -/

/-- C1: over the rationals, when `w = H[6]*x + H[7]*y + H[8]` is non-zero,
`project H (x, y)` is `((H[0]*x + H[1]*y + H[2]) / w, (H[3]*x + H[4]*y + H[5]) / w)`:
the product of `H` with `(x, y, 1)` divided by its third component, so that
multiplying the result back by `w` gives the first two components of the product. -/
theorem project_spec (H : Fin 9 → ℚ) (x y : ℚ) (hw : H 6 * x + H 7 * y + H 8 ≠ 0) :
    project H ![x, y] =
      ![(H 0 * x + H 1 * y + H 2) / (H 6 * x + H 7 * y + H 8),
        (H 3 * x + H 4 * y + H 5) / (H 6 * x + H 7 * y + H 8)]
    ∧ (project H ![x, y]) 0 * (H 6 * x + H 7 * y + H 8) = H 0 * x + H 1 * y + H 2
    ∧ (project H ![x, y]) 1 * (H 6 * x + H 7 * y + H 8) = H 3 * x + H 4 * y + H 5 := by
  have h0 : project H ![x, y] =
      ![(H 0 * x + H 1 * y + H 2) / (H 6 * x + H 7 * y + H 8),
        (H 3 * x + H 4 * y + H 5) / (H 6 * x + H 7 * y + H 8)] := by
    funext i
    fin_cases i <;> rfl
  refine ⟨h0, ?_, ?_⟩
  · rw [h0]; simp [div_mul_cancel₀ _ hw]
  · rw [h0]; simp [div_mul_cancel₀ _ hw]

/-- C1 at the homography with rows (1,2,3), (4,5,6), (7,8,9) and the point (1, 1),
where `w = 24`. -/
theorem project_spec_witness :
    sampleH 6 * 1 + sampleH 7 * 1 + sampleH 8 ≠ 0
    ∧ (project sampleH ![1, 1] =
        ![(sampleH 0 * 1 + sampleH 1 * 1 + sampleH 2) / (sampleH 6 * 1 + sampleH 7 * 1 + sampleH 8),
          (sampleH 3 * 1 + sampleH 4 * 1 + sampleH 5) / (sampleH 6 * 1 + sampleH 7 * 1 + sampleH 8)]
      ∧ (project sampleH ![1, 1]) 0 * (sampleH 6 * 1 + sampleH 7 * 1 + sampleH 8)
          = sampleH 0 * 1 + sampleH 1 * 1 + sampleH 2
      ∧ (project sampleH ![1, 1]) 1 * (sampleH 6 * 1 + sampleH 7 * 1 + sampleH 8)
          = sampleH 3 * 1 + sampleH 4 * 1 + sampleH 5) :=
  have hw : sampleH 6 * 1 + sampleH 7 * 1 + sampleH 8 ≠ 0 := by
    show (7 : ℚ) * 1 + 8 * 1 + 9 ≠ 0
    norm_num
  ⟨hw, project_spec sampleH 1 1 hw⟩

/-- C2: over the rationals, for the homography `diag(s, s, 1)` the projection of
`(x, y)` is `(s*x, s*y)`; for the identity it is `(x, y)`; and for `diag(2, 2, 1)`
the projection of `(3, 4)` is `(6, 8)`. -/
theorem project_diag (s x y : ℚ) :
    project ![s, 0, 0, 0, s, 0, 0, 0, 1] ![x, y] = ![s * x, s * y]
    ∧ project (![1, 0, 0, 0, 1, 0, 0, 0, 1] : Fin 9 → ℚ) ![x, y] = ![x, y]
    ∧ project (![2, 0, 0, 0, 2, 0, 0, 0, 1] : Fin 9 → ℚ) ![3, 4] = ![6, 8] := by
  have hs : ∀ t a b : ℚ, project ![t, 0, 0, 0, t, 0, 0, 0, 1] ![a, b] = ![t * a, t * b] := by
    intro t a b
    funext i
    fin_cases i
    · show (t * a + 0 * b + 0) / (0 * a + 0 * b + 1) = t * a
      simp
    · show (0 * a + t * b + 0) / (0 * a + 0 * b + 1) = t * b
      simp
  refine ⟨hs s x y, ?_, ?_⟩
  · have h := hs 1 x y
    simpa using h
  · have h := hs 2 3 4
    rw [h]
    norm_num

/-- C3, refuted: in `"axes"` mode with a frame present, the batch holding only
`degenerateDetection` (third row of the homography all zero) is not skipped: the
two axis lines are drawn between the results of `project` on that homography, and
the four corner circles follow. -/
theorem onTags_axes_draws_degenerate :
    (degenerateDetection.homography 6 = 0 ∧ degenerateDetection.homography 7 = 0
      ∧ degenerateDetection.homography 8 = 0)
    ∧ (frameNode "axes").img.empty = false
    ∧ (onTags sampleCv (frameNode "axes") [degenerateDetection]).calls =
        [DrawCmd.line
            ⟨project degenerateDetection.homography ![0, 0] 0,
             project degenerateDetection.homography ![0, 0] 1⟩
            ⟨project degenerateDetection.homography ![1, 0] 0,
             project degenerateDetection.homography ![1, 0] 1⟩ ⟨0, 0, 255, 255⟩ 3,
         DrawCmd.line
            ⟨project degenerateDetection.homography ![0, 0] 0,
             project degenerateDetection.homography ![0, 0] 1⟩
            ⟨project degenerateDetection.homography ![0, 1] 0,
             project degenerateDetection.homography ![0, 1] 1⟩ ⟨0, 255, 0, 255⟩ 3,
         DrawCmd.circle (toPoint sampleCv (degenerateDetection.corners 0)) 5 ⟨0, 0, 255, 255⟩ 2,
         DrawCmd.circle (toPoint sampleCv (degenerateDetection.corners 1)) 5 ⟨0, 255, 0, 255⟩ 2,
         DrawCmd.circle (toPoint sampleCv (degenerateDetection.corners 2)) 5 ⟨255, 0, 0, 255⟩ 2,
         DrawCmd.circle (toPoint sampleCv (degenerateDetection.corners 3)) 5 ⟨0, 255, 255, 255⟩ 2] :=
  ⟨⟨rfl, rfl, rfl⟩, by decide, rfl⟩

/-- C3, amended: in `"axes"` mode with a frame present, `onTags` throws nothing and
skips no detection: for every detection of the batch, in order and whatever its
homography, it draws the two axis lines between the results of `project` at (0,0),
(1,0) and (0,1), then the four corner circles. -/
theorem onTags_axes_draws_all {α : Type} [Add α] [Mul α] [Div α] [Zero α] [One α]
    (cv : Cv α) (n : Node) (detections : List (Detection α))
    (himg : n.img.empty = false) (hmode : n.overlay_mode = "axes") :
    (onTags cv n detections).error = none
    ∧ (onTags cv n detections).calls = detections.flatMap fun d =>
        [DrawCmd.line ⟨project d.homography ![0, 0] 0, project d.homography ![0, 0] 1⟩
            ⟨project d.homography ![1, 0] 0, project d.homography ![1, 0] 1⟩ ⟨0, 0, 255, 255⟩ 3,
         DrawCmd.line ⟨project d.homography ![0, 0] 0, project d.homography ![0, 0] 1⟩
            ⟨project d.homography ![0, 1] 0, project d.homography ![0, 1] 1⟩ ⟨0, 255, 0, 255⟩ 3,
         DrawCmd.circle (toPoint cv (d.corners 0)) 5 (colours 0) 2,
         DrawCmd.circle (toPoint cv (d.corners 1)) 5 (colours 1) 2,
         DrawCmd.circle (toPoint cv (d.corners 2)) 5 (colours 2) 2,
         DrawCmd.circle (toPoint cv (d.corners 3)) 5 (colours 3) 2] := by
  unfold onTags
  rw [himg, hmode]
  have h := renderDetections_axes cv detections
    ⟨Mat.filled n.img.rows n.img.cols 3 ⟨0, 0, 0, 0⟩, []⟩
  simpa using h

/-- C3, amended, at the batch holding `degenerateDetection` twice. -/
theorem onTags_axes_draws_all_witness :
    (frameNode "axes").img.empty = false ∧ (frameNode "axes").overlay_mode = "axes"
    ∧ ((onTags sampleCv (frameNode "axes") [degenerateDetection, degenerateDetection]).error = none
      ∧ (onTags sampleCv (frameNode "axes") [degenerateDetection, degenerateDetection]).calls =
        [degenerateDetection, degenerateDetection].flatMap fun d =>
        [DrawCmd.line ⟨project d.homography ![0, 0] 0, project d.homography ![0, 0] 1⟩
            ⟨project d.homography ![1, 0] 0, project d.homography ![1, 0] 1⟩ ⟨0, 0, 255, 255⟩ 3,
         DrawCmd.line ⟨project d.homography ![0, 0] 0, project d.homography ![0, 0] 1⟩
            ⟨project d.homography ![0, 1] 0, project d.homography ![0, 1] 1⟩ ⟨0, 255, 0, 255⟩ 3,
         DrawCmd.circle (toPoint sampleCv (d.corners 0)) 5 (colours 0) 2,
         DrawCmd.circle (toPoint sampleCv (d.corners 1)) 5 (colours 1) 2,
         DrawCmd.circle (toPoint sampleCv (d.corners 2)) 5 (colours 2) 2,
         DrawCmd.circle (toPoint sampleCv (d.corners 3)) 5 (colours 3) 2]) :=
  ⟨by decide, rfl,
    onTags_axes_draws_all sampleCv (frameNode "axes") [degenerateDetection, degenerateDetection]
      (by decide) rfl⟩

/-- C4, refuted: with a frame present and `overlay_mode = "bogus"`, the empty batch
makes `onTags` return normally: no exception, no drawing call, and the overlay
replaced by the all-zero buffer of the frame's size. -/
theorem onTags_bogus_empty_batch_returns :
    (frameNode "bogus").img.empty = false
    ∧ (frameNode "bogus").overlay_mode ≠ "axes" ∧ (frameNode "bogus").overlay_mode ≠ "tri"
    ∧ (onTags sampleCv (frameNode "bogus") []).error = none
    ∧ (onTags sampleCv (frameNode "bogus") []).calls = []
    ∧ (onTags sampleCv (frameNode "bogus") []).node.overlay = ⟨1, 1, 3, [0, 0, 0]⟩ :=
  ⟨by decide, by decide, by decide, rfl, rfl, by decide⟩

/-- C4, amended: with a frame present and `overlay_mode` neither `"axes"` nor `"tri"`,
every batch with at least one detection makes `onTags` throw "unknown overlay mode"
before any drawing call; the overlay is left as the fresh all-zero buffer. -/
theorem onTags_unknown_mode_throws {α : Type} [Add α] [Mul α] [Div α] [Zero α] [One α]
    (cv : Cv α) (n : Node) (d : Detection α) (rest : List (Detection α))
    (himg : n.img.empty = false)
    (haxes : n.overlay_mode ≠ "axes") (htri : n.overlay_mode ≠ "tri") :
    (onTags cv n (d :: rest)).error = some "unknown overlay mode"
    ∧ (onTags cv n (d :: rest)).calls = []
    ∧ (onTags cv n (d :: rest)).node.overlay = Mat.filled n.img.rows n.img.cols 3 ⟨0, 0, 0, 0⟩ := by
  unfold onTags
  rw [himg]
  simp [renderDetections, haxes, htri]

/-- C4, amended, at the mode `"bogus"` and a batch of one detection. -/
theorem onTags_unknown_mode_throws_witness :
    (frameNode "bogus").img.empty = false
    ∧ (frameNode "bogus").overlay_mode ≠ "axes" ∧ (frameNode "bogus").overlay_mode ≠ "tri"
    ∧ ((onTags sampleCv (frameNode "bogus") [degenerateDetection]).error
          = some "unknown overlay mode"
      ∧ (onTags sampleCv (frameNode "bogus") [degenerateDetection]).calls = []
      ∧ (onTags sampleCv (frameNode "bogus") [degenerateDetection]).node.overlay
          = Mat.filled (frameNode "bogus").img.rows (frameNode "bogus").img.cols 3 ⟨0, 0, 0, 0⟩) :=
  ⟨by decide, by decide, by decide,
    onTags_unknown_mode_throws sampleCv (frameNode "bogus") degenerateDetection []
      (by decide) (by decide) (by decide)⟩

/-- C5, refuted: a node holding the frame `frame1` (also displayed) and no overlay
receives the two-byte payload `[0, 0]`, which does not decode; afterwards `img` and
`merged` are the empty image and no longer the previous frame. -/
theorem undecodable_frame_overwrites_img :
    (sampleCv.imdecode [0, 0]).empty = true
    ∧ (frameNode "axes").img = frame1 ∧ (frameNode "axes").merged = frame1
    ∧ (onImage sampleCv (frameNode "axes") [0, 0]).node.img = ⟨0, 0, 1, []⟩
    ∧ (onImage sampleCv (frameNode "axes") [0, 0]).node.merged = ⟨0, 0, 1, []⟩
    ∧ (onImage sampleCv (frameNode "axes") [0, 0]).node.img ≠ (frameNode "axes").img
    ∧ (onImage sampleCv (frameNode "axes") [0, 0]).node.merged ≠ (frameNode "axes").merged :=
  ⟨by decide, rfl, rfl, by decide, by decide, by decide, by decide⟩

/-- C5, amended: when the payload does not decode, `onImage` does not skip the
frame: `img` becomes the empty image the decoder returned; the overlay is unchanged;
and when the overlay is empty, `merged` becomes that empty image too and is the
image passed to cv::imshow. -/
theorem onImage_undecodable {α : Type} (cv : Cv α) (n : Node) (msg : List Nat)
    (hdec : (cv.imdecode msg).empty = true) :
    (onImage cv n msg).node.img = cv.imdecode msg
    ∧ (onImage cv n msg).node.img.empty = true
    ∧ (onImage cv n msg).node.overlay = n.overlay
    ∧ (n.overlay.empty = true →
        (onImage cv n msg).node.merged = cv.imdecode msg
        ∧ (onImage cv n msg).shown = some (cv.imdecode msg)) := by
  have himg : (onImage cv n msg).node.img = cv.imdecode msg := by
    unfold onImage
    dsimp only
    split
    · rfl
    · split <;> rfl
  refine ⟨himg, by rw [himg]; exact hdec, onImage_keeps_overlay cv n msg, ?_⟩
  intro hov
  unfold onImage
  dsimp only
  rw [if_pos hov]
  exact ⟨rfl, rfl⟩

/-- C5, amended, at a node holding `frame1` and the payload `[0, 0]`. -/
theorem onImage_undecodable_witness :
    (sampleCv.imdecode [0, 0]).empty = true
    ∧ ((onImage sampleCv (frameNode "axes") [0, 0]).node.img = sampleCv.imdecode [0, 0]
      ∧ (onImage sampleCv (frameNode "axes") [0, 0]).node.img.empty = true
      ∧ (onImage sampleCv (frameNode "axes") [0, 0]).node.overlay = (frameNode "axes").overlay
      ∧ ((frameNode "axes").overlay.empty = true →
          (onImage sampleCv (frameNode "axes") [0, 0]).node.merged = sampleCv.imdecode [0, 0]
          ∧ (onImage sampleCv (frameNode "axes") [0, 0]).shown = some (sampleCv.imdecode [0, 0]))) :=
  ⟨by decide, onImage_undecodable sampleCv (frameNode "axes") [0, 0] (by decide)⟩

/-- C6: when the overlay is empty and the payload decodes to a non-empty frame,
`onImage` stores the frame in `img`, sets `merged` to exactly that frame, byte for
byte, and passes it to cv::imshow, without calling the blend and without an
exception on the way. -/
theorem onImage_no_overlay {α : Type} (cv : Cv α) (n : Node) (msg : List Nat)
    (hov : n.overlay.empty = true) (hdec : (cv.imdecode msg).empty = false) :
    (onImage cv n msg).node.merged = cv.imdecode msg
    ∧ (onImage cv n msg).shown = some (cv.imdecode msg)
    ∧ (onImage cv n msg).node.img = cv.imdecode msg
    ∧ (onImage cv n msg).error = none
    ∧ (∀ r c k, (onImage cv n msg).node.merged.px r c k = (cv.imdecode msg).px r c k) := by
  have _ := hdec
  unfold onImage
  dsimp only
  rw [if_pos hov]
  exact ⟨rfl, rfl, rfl, rfl, fun _ _ _ => rfl⟩

/-- C6 at the freshly constructed node and a payload that decodes to one pixel. -/
theorem onImage_no_overlay_witness :
    (Node.init none none).overlay.empty = true
    ∧ (sampleCv.imdecode [10, 20, 30]).empty = false
    ∧ ((onImage sampleCv (Node.init none none) [10, 20, 30]).node.merged
          = sampleCv.imdecode [10, 20, 30]
      ∧ (onImage sampleCv (Node.init none none) [10, 20, 30]).shown
          = some (sampleCv.imdecode [10, 20, 30])
      ∧ (onImage sampleCv (Node.init none none) [10, 20, 30]).node.img
          = sampleCv.imdecode [10, 20, 30]
      ∧ (onImage sampleCv (Node.init none none) [10, 20, 30]).error = none
      ∧ (∀ r c k, (onImage sampleCv (Node.init none none) [10, 20, 30]).node.merged.px r c k
          = (sampleCv.imdecode [10, 20, 30]).px r c k)) :=
  ⟨by decide, by decide,
    onImage_no_overlay sampleCv (Node.init none none) [10, 20, 30] (by decide) (by decide)⟩

/-- C7: when the stored overlay is non-empty and the decoded frame has its
dimensions (rows, columns, channels), `onImage` blends without an exception and
passes the result to cv::imshow; the result has the frame's dimensions and at every
pixel and channel the value `saturate_cast (frame * 1 + overlay * alpha + 0)`, which
lies in 0..255, with `alpha` the parameter of that name or 1/2 when it is not set.
In particular with `alpha = 1/2`, a frame value `C1` and an overlay value `C2` give
`saturate_cast (C1 + 1/2 * C2)`. -/
theorem onImage_blend {α : Type} (cv : Cv α) (n : Node) (msg : List Nat)
    (hov : n.overlay.empty = false)
    (hrows : (cv.imdecode msg).rows = n.overlay.rows)
    (hcols : (cv.imdecode msg).cols = n.overlay.cols)
    (hch : (cv.imdecode msg).channels = n.overlay.channels) :
    (onImage cv n msg).error = none
    ∧ (onImage cv n msg).shown = some (onImage cv n msg).node.merged
    ∧ (onImage cv n msg).node.merged.rows = (cv.imdecode msg).rows
    ∧ (onImage cv n msg).node.merged.cols = (cv.imdecode msg).cols
    ∧ (onImage cv n msg).node.merged.channels = (cv.imdecode msg).channels
    ∧ ∀ r c k, r < (cv.imdecode msg).rows → c < (cv.imdecode msg).cols →
        k < (cv.imdecode msg).channels →
        (onImage cv n msg).node.merged.px r c k
          = saturate_cast (((cv.imdecode msg).px r c k : ℚ) * 1
              + (n.overlay.px r c k : ℚ) * n.alpha.getD (1 / 2) + 0)
        ∧ (onImage cv n msg).node.merged.px r c k ≤ 255
        ∧ ∀ C1 C2 : Nat, (cv.imdecode msg).px r c k = C1 → n.overlay.px r c k = C2 →
            n.alpha.getD (1 / 2) = 1 / 2 →
            (onImage cv n msg).node.merged.px r c k = saturate_cast ((C1 : ℚ) + 1 / 2 * (C2 : ℚ)) := by
  have hok := addWeighted_ok (cv.imdecode msg) 1 n.overlay (n.alpha.getD (1 / 2)) 0
    ⟨hrows, hcols, hch⟩
  have hout : onImage cv n msg =
      ⟨{ n with
          img := cv.imdecode msg
          merged := ⟨(cv.imdecode msg).rows, (cv.imdecode msg).cols, (cv.imdecode msg).channels,
            (List.range ((cv.imdecode msg).rows * (cv.imdecode msg).cols
                * (cv.imdecode msg).channels)).map fun i =>
              saturate_cast (((cv.imdecode msg).data.getD i 0 : ℚ) * 1
                + (n.overlay.data.getD i 0 : ℚ) * n.alpha.getD (1 / 2) + 0)⟩ },
        some ⟨(cv.imdecode msg).rows, (cv.imdecode msg).cols, (cv.imdecode msg).channels,
            (List.range ((cv.imdecode msg).rows * (cv.imdecode msg).cols
                * (cv.imdecode msg).channels)).map fun i =>
              saturate_cast (((cv.imdecode msg).data.getD i 0 : ℚ) * 1
                + (n.overlay.data.getD i 0 : ℚ) * n.alpha.getD (1 / 2) + 0)⟩,
        none⟩ := by
    unfold onImage
    dsimp only
    rw [hov, hok]
    rfl
  rw [hout]
  refine ⟨rfl, rfl, rfl, rfl, rfl, ?_⟩
  intro r c k hr hc hk
  have hpx := blend_px (cv.imdecode msg) 1 n.overlay (n.alpha.getD (1 / 2)) 0 hcols hch r c k hr hc hk
  refine ⟨hpx, ?_, ?_⟩
  · exact hpx ▸ saturate_cast_le _
  · intro C1 C2 h1 h2 ha
    dsimp only
    rw [hpx, h1, h2, ha]
    congr 1
    ring

/-- C7 at a node holding the one-pixel overlay `overlay1`, with `alpha` not set, and
a payload that decodes to one pixel. -/
theorem onImage_blend_witness :
    (overlayNode "axes").overlay.empty = false
    ∧ (sampleCv.imdecode [10, 20, 30]).rows = (overlayNode "axes").overlay.rows
    ∧ (sampleCv.imdecode [10, 20, 30]).cols = (overlayNode "axes").overlay.cols
    ∧ (sampleCv.imdecode [10, 20, 30]).channels = (overlayNode "axes").overlay.channels
    ∧ ((onImage sampleCv (overlayNode "axes") [10, 20, 30]).error = none
      ∧ (onImage sampleCv (overlayNode "axes") [10, 20, 30]).shown
          = some (onImage sampleCv (overlayNode "axes") [10, 20, 30]).node.merged
      ∧ (onImage sampleCv (overlayNode "axes") [10, 20, 30]).node.merged.rows
          = (sampleCv.imdecode [10, 20, 30]).rows
      ∧ (onImage sampleCv (overlayNode "axes") [10, 20, 30]).node.merged.cols
          = (sampleCv.imdecode [10, 20, 30]).cols
      ∧ (onImage sampleCv (overlayNode "axes") [10, 20, 30]).node.merged.channels
          = (sampleCv.imdecode [10, 20, 30]).channels
      ∧ ∀ r c k, r < (sampleCv.imdecode [10, 20, 30]).rows →
          c < (sampleCv.imdecode [10, 20, 30]).cols →
          k < (sampleCv.imdecode [10, 20, 30]).channels →
          (onImage sampleCv (overlayNode "axes") [10, 20, 30]).node.merged.px r c k
            = saturate_cast (((sampleCv.imdecode [10, 20, 30]).px r c k : ℚ) * 1
                + ((overlayNode "axes").overlay.px r c k : ℚ)
                  * (overlayNode "axes").alpha.getD (1 / 2) + 0)
          ∧ (onImage sampleCv (overlayNode "axes") [10, 20, 30]).node.merged.px r c k ≤ 255
          ∧ ∀ C1 C2 : Nat, (sampleCv.imdecode [10, 20, 30]).px r c k = C1 →
              (overlayNode "axes").overlay.px r c k = C2 →
              (overlayNode "axes").alpha.getD (1 / 2) = 1 / 2 →
              (onImage sampleCv (overlayNode "axes") [10, 20, 30]).node.merged.px r c k
                = saturate_cast ((C1 : ℚ) + 1 / 2 * (C2 : ℚ))) :=
  ⟨by decide, by decide, by decide, by decide,
    onImage_blend sampleCv (overlayNode "axes") [10, 20, 30]
      (by decide) (by decide) (by decide) (by decide)⟩

/-- C8: when `img` is empty, `onTags` returns without an exception and without a
drawing call, and leaves the node as it was, whatever the batch and the mode; in
particular an empty overlay stays empty. -/
theorem onTags_no_frame {α : Type} [Add α] [Mul α] [Div α] [Zero α] [One α]
    (cv : Cv α) (n : Node) (detections : List (Detection α))
    (himg : n.img.empty = true) :
    (onTags cv n detections).error = none
    ∧ (onTags cv n detections).calls = []
    ∧ (onTags cv n detections).node = n
    ∧ (onTags cv n detections).node.overlay = n.overlay
    ∧ (onTags cv n detections).node.img = n.img
    ∧ (onTags cv n detections).node.merged = n.merged
    ∧ (n.overlay.empty = true → (onTags cv n detections).node.overlay.empty = true) := by
  unfold onTags
  rw [if_pos himg]
  exact ⟨rfl, rfl, rfl, rfl, rfl, rfl, fun h => h⟩

/-- C8 at the freshly constructed node with the mode `"bogus"` and a batch of one
detection. -/
theorem onTags_no_frame_witness :
    (Node.init (some "bogus") none).img.empty = true
    ∧ ((onTags sampleCv (Node.init (some "bogus") none) [degenerateDetection]).error = none
      ∧ (onTags sampleCv (Node.init (some "bogus") none) [degenerateDetection]).calls = []
      ∧ (onTags sampleCv (Node.init (some "bogus") none) [degenerateDetection]).node
          = Node.init (some "bogus") none
      ∧ (onTags sampleCv (Node.init (some "bogus") none) [degenerateDetection]).node.overlay
          = (Node.init (some "bogus") none).overlay
      ∧ (onTags sampleCv (Node.init (some "bogus") none) [degenerateDetection]).node.img
          = (Node.init (some "bogus") none).img
      ∧ (onTags sampleCv (Node.init (some "bogus") none) [degenerateDetection]).node.merged
          = (Node.init (some "bogus") none).merged
      ∧ ((Node.init (some "bogus") none).overlay.empty = true →
          (onTags sampleCv (Node.init (some "bogus") none)
            [degenerateDetection]).node.overlay.empty = true)) :=
  ⟨by decide,
    onTags_no_frame sampleCv (Node.init (some "bogus") none) [degenerateDetection] (by decide)⟩

/-- C9: with a frame stored and the mode `"axes"` or `"tri"`, `onTags` on the empty
batch returns without an exception or a drawing call and stores an overlay with the
frame's rows and columns, three channels, and every byte zero; the result is the
same whatever overlay was held before. -/
theorem onTags_empty_batch {α : Type} [Add α] [Mul α] [Div α] [Zero α] [One α]
    (cv : Cv α) (n : Node)
    (himg : n.img.empty = false)
    (hmode : n.overlay_mode = "axes" ∨ n.overlay_mode = "tri") :
    (onTags cv n ([] : List (Detection α))).error = none
    ∧ (onTags cv n ([] : List (Detection α))).calls = []
    ∧ (onTags cv n ([] : List (Detection α))).node.overlay.rows = n.img.rows
    ∧ (onTags cv n ([] : List (Detection α))).node.overlay.cols = n.img.cols
    ∧ (onTags cv n ([] : List (Detection α))).node.overlay.channels = 3
    ∧ (onTags cv n ([] : List (Detection α))).node.overlay.data.length
        = n.img.rows * n.img.cols * 3
    ∧ (∀ v ∈ (onTags cv n ([] : List (Detection α))).node.overlay.data, v = 0)
    ∧ (∀ r c k, (onTags cv n ([] : List (Detection α))).node.overlay.px r c k = 0)
    ∧ (∀ prev : Mat, (onTags cv { n with overlay := prev } ([] : List (Detection α))).node.overlay
        = (onTags cv n ([] : List (Detection α))).node.overlay) := by
  have _ := hmode
  have hov : (onTags cv n ([] : List (Detection α))).node.overlay
      = Mat.filled n.img.rows n.img.cols 3 ⟨0, 0, 0, 0⟩ := by
    unfold onTags
    rw [himg]
    rfl
  have hprev : ∀ prev : Mat,
      (onTags cv { n with overlay := prev } ([] : List (Detection α))).node.overlay
        = Mat.filled n.img.rows n.img.cols 3 ⟨0, 0, 0, 0⟩ := by
    intro prev
    unfold onTags
    dsimp only
    rw [himg]
    rfl
  refine ⟨?_, ?_, ?_, ?_, ?_, ?_, ?_, ?_, ?_⟩
  · unfold onTags
    rw [himg]
    rfl
  · unfold onTags
    rw [himg]
    rfl
  · rw [hov]; rfl
  · rw [hov]; rfl
  · rw [hov]; rfl
  · rw [hov]
    simp [Mat.filled, Scalar.toList, List.length_flatten]
  · rw [hov]
    exact filled_zero_data _ _ _
  · intro r c k
    rw [hov]
    exact getD_of_forall_eq (filled_zero_data _ _ _) _
  · intro prev
    rw [hov, hprev]

/-- C9 at a node holding the one-pixel frame `frame1` and the overlay `overlay1`,
in the mode `"tri"`. -/
theorem onTags_empty_batch_witness :
    (overlayNode "tri").img.empty = false
    ∧ ((overlayNode "tri").overlay_mode = "axes" ∨ (overlayNode "tri").overlay_mode = "tri")
    ∧ ((onTags sampleCv (overlayNode "tri") []).error = none
      ∧ (onTags sampleCv (overlayNode "tri") []).calls = []
      ∧ (onTags sampleCv (overlayNode "tri") []).node.overlay.rows = (overlayNode "tri").img.rows
      ∧ (onTags sampleCv (overlayNode "tri") []).node.overlay.cols = (overlayNode "tri").img.cols
      ∧ (onTags sampleCv (overlayNode "tri") []).node.overlay.channels = 3
      ∧ (onTags sampleCv (overlayNode "tri") []).node.overlay.data.length
          = (overlayNode "tri").img.rows * (overlayNode "tri").img.cols * 3
      ∧ (∀ v ∈ (onTags sampleCv (overlayNode "tri") []).node.overlay.data, v = 0)
      ∧ (∀ r c k, (onTags sampleCv (overlayNode "tri") []).node.overlay.px r c k = 0)
      ∧ (∀ prev : Mat,
          (onTags sampleCv { overlayNode "tri" with overlay := prev } []).node.overlay
            = (onTags sampleCv (overlayNode "tri") []).node.overlay)) :=
  ⟨by decide, Or.inr rfl,
    onTags_empty_batch sampleCv (overlayNode "tri") (by decide) (Or.inr rfl)⟩

/-- C10: `onImage` leaves the overlay field as it was, for every node and every
payload, and so does every sequence of frame arrivals: only `onTags` writes it. -/
theorem onImage_overlay_unchanged {α : Type} (cv : Cv α) (n : Node) :
    (∀ msg : List Nat, (onImage cv n msg).node.overlay = n.overlay)
    ∧ (∀ msgs : List (List Nat), (onImages cv n msgs).overlay = n.overlay) := by
  refine ⟨fun msg => onImage_keeps_overlay cv n msg, ?_⟩
  intro msgs
  induction msgs generalizing n with
  | nil => rfl
  | cons m rest ih =>
    show (onImages cv (onImage cv n m).node rest).overlay = n.overlay
    rw [ih, onImage_keeps_overlay]

end AprilVizNode
